import Mathlib

/-!
Verification development for the reddit-meme-scraper repository.

The embedding below translates the TypeScript sources:
  * src/types.ts + src/utils.ts : extractTickers, determinePostType, getMediaUrl, isMemePost
  * src/scraper.ts (RedditMemeScraper) : constructor defaulting, fetchMemes,
    fetchFromSubreddit, shouldIncludePost, convertToMemePost, getTrendingTickers

Strings are modelled as lists of characters (JS strings are sequences of
UTF-16 units; all constants involved are ASCII).  JS numbers holding Reddit
scores, comment counts and timestamps are modelled as Int.  Fallible JS code
(an expression that can throw) is modelled with Except.  JS Map and Set are
modelled as association lists / lists that preserve insertion order, which is
exactly the iteration-order guarantee JS gives.
-/

abbrev Str := List Char

/-- Coerce a Lean string literal to the character-list model. -/
def str (s : String) : Str := s.data

/-- The five media categories of types.ts (the spec calls `gif` animated-image). -/
inductive PostType
  | image
  | gif
  | video
  | gallery
  | link
deriving DecidableEq, Repr

/-- RawPost: the fields of the untyped Reddit submission object that the code
reads.  A field whose absence the code can observe is an Option; `author`
models `post.author` (an object whose `.name` the code reads), so a missing
author object is `none`. -/
structure RawPost where
  is_gallery : Bool := false
  post_hint : Option Str := none
  url : Option Str := none
  is_video : Bool := false
  over_18 : Bool := false
  score : Int := 0
  num_comments : Int := 0
  upvote_ratio : Int := 0
  total_awards_received : Option Int := none
  id : Str := []
  title : Str := []
  selftext : Option Str := none
  author : Option Str := none
  permalink : Str := []
  created_utc : Int := 0
  reddit_video_fallback : Option Str := none
  preview_source : Option Str := none
  media_metadata : Option (List (Str × Option Str)) := none
deriving DecidableEq, Repr

/-- Engagement sub-record of MemePost (types.ts). -/
structure Engagement where
  upvotes : Int
  upvoteRatio : Int
  comments : Int
  awards : Int
deriving DecidableEq, Repr

/-- MemePost (types.ts); createdAt is epoch milliseconds. -/
structure MemePost where
  id : Str
  title : Str
  url : Str
  mediaUrl : Option Str
  author : Str
  subreddit : Str
  createdAt : Int
  engagement : Engagement
  tickers : List Str
  postType : PostType
  isNSFW : Bool
deriving DecidableEq, Repr

/-- ScraperConfig (types.ts). -/
structure ScraperConfig where
  subreddits : List Str
  minUpvotes : Int
  minComments : Int
  timeframe : Str
  limit : Int
  includeNSFW : Bool
deriving DecidableEq, Repr

/-- The Partial ScraperConfig accepted by the constructor. -/
structure PartialConfig where
  subreddits : Option (List Str) := none
  minUpvotes : Option Int := none
  minComments : Option Int := none
  timeframe : Option Str := none
  limit : Option Int := none
  includeNSFW : Option Bool := none

/-- JS `x || d` for an optional number: undefined and 0 are falsy. -/
def jsOrNum (o : Option Int) (d : Int) : Int :=
  match o with
  | none => d
  | some n => if n = 0 then d else n

/-- JS `x || d` for an optional string: undefined and the empty string are falsy. -/
def jsOrStr (o : Option Str) (d : Str) : Str :=
  match o with
  | none => d
  | some s => if s = [] then d else s

/-- Constructor defaulting (scraper.ts lines 26-33).  `config.subreddits ||
['wallstreetbets']` keeps any present array — in JS an empty array is truthy —
so only an absent field is replaced; `??` keeps any present number;
`limit || 50` treats 0 as absent; `timeframe || 'day'` treats "" as absent. -/
def buildConfig (c : PartialConfig) : ScraperConfig :=
  { subreddits := c.subreddits.getD [str "wallstreetbets"]
    minUpvotes := c.minUpvotes.getD 100
    minComments := c.minComments.getD 0
    timeframe := jsOrStr c.timeframe (str "day")
    limit := jsOrNum c.limit 50
    includeNSFW := c.includeNSFW.getD true }

/-- Uppercase Latin letter, the character class [A-Z] of the ticker regex. -/
def isUpperLatin (c : Char) : Bool :=
  decide ('A' ≤ c) && decide (c ≤ 'Z')

/-- JS regex word character \w = [A-Za-z0-9_], used by the boundary \b. -/
def isWordChar (c : Char) : Bool :=
  (decide ('A' ≤ c) && decide (c ≤ 'Z')) ||
  (decide ('a' ≤ c) && decide (c ≤ 'z')) ||
  (decide ('0' ≤ c) && decide (c ≤ '9')) ||
  decide (c = '_')

/-- The word boundary \b after the captured letters: holds at end of input or
before a non-word character. -/
def boundaryOk : Str → Bool
  | [] => true
  | c :: _ => !isWordChar c

/-- All matches of the regex \$([A-Z]\x7b1,5\x7d)\b over the text, in order,
captured group only (utils.ts extractTickers, the matchAll loop).  At a `$` the
greedy quantifier with the trailing \b matches exactly when the maximal run of
uppercase letters after the `$` has length 1..5 and is followed by a word
boundary (inside the run every position is between two word characters, so
backtracking to a shorter prefix can never satisfy \b).  After a match the JS
engine resumes after the matched substring; since the matched span past the
`$` consists of uppercase letters only, no later match can begin inside it,
so resuming at the very next character — as this recursion does — yields the
same match list. -/
def scanMatches : Str → List Str
  | [] => []
  | c :: rest =>
    if c = '$' then
      let run := rest.takeWhile isUpperLatin
      if 1 ≤ run.length ∧ run.length ≤ 5 ∧ boundaryOk (rest.dropWhile isUpperLatin) then
        run :: scanMatches rest
      else
        scanMatches rest
    else
      scanMatches rest

/-- One step of `Set.add`: a JS Set keeps insertion order and ignores
re-insertion of a present element. -/
def pushFirst (acc : List Str) (t : Str) : List Str :=
  if t ∈ acc then acc else acc ++ [t]

/-- extractTickers (utils.ts): collect every regex match into a Set and return
`Array.from` of it — the matches in order of first appearance, deduplicated. -/
def extractTickers (text : Str) : List Str :=
  (scanMatches text).foldl pushFirst []

/-- JS `hay.includes(needle)`: contiguous substring containment. -/
def containsStr (hay needle : Str) : Bool :=
  match hay with
  | [] => decide (needle = [])
  | _ :: rest => needle.isPrefixOf hay || containsStr rest needle

/-- Lowercased URL of a raw post: `post.url?.toLowerCase() || ''`
(utils.ts determinePostType). -/
def urlLower (post : RawPost) : Str :=
  (post.url.getD []).map Char.toLower

/-- determinePostType (utils.ts lines 55-95), the nine-step classifier. -/
def determinePostType (post : RawPost) : PostType :=
  if post.is_gallery then .gallery
  else if post.post_hint == some (str "image") then .image
  else if post.post_hint == some (str "hosted:video") || post.post_hint == some (str "rich:video") then .video
  else
    let url := urlLower post
    if (str ".gif").isSuffixOf url || (str ".gifv").isSuffixOf url then .gif
    else if (str ".jpg").isSuffixOf url || (str ".jpeg").isSuffixOf url ||
            (str ".png").isSuffixOf url || (str ".webp").isSuffixOf url then .image
    else if (str ".mp4").isSuffixOf url || (str ".webm").isSuffixOf url ||
            (str ".mov").isSuffixOf url then .video
    else if containsStr url (str "i.redd.it") || containsStr url (str "i.imgur.com") then .image
    else if containsStr url (str "v.redd.it") then .video
    else .link

/-- JS truthiness of an optional string: present and non-empty. -/
def otruthy : Option Str → Bool
  | some (_ :: _) => true
  | _ => false

/-- Global replace of the five-character sequence &amp; by & (left to right,
non-overlapping), as in `.replace(/&amp;/g, '&')`. -/
def unescapeAmp : Str → Str
  | '&' :: 'a' :: 'm' :: 'p' :: ';' :: rest => '&' :: unescapeAmp rest
  | c :: rest => c :: unescapeAmp rest
  | [] => []

/-- getMediaUrl (utils.ts lines 100-126). -/
def getMediaUrl (post : RawPost) : Option Str :=
  if otruthy post.url && (post.post_hint == some (str "image") || post.is_video) then
    post.url
  else
    match post.reddit_video_fallback with
    | some (c :: cs) => some (c :: cs)
    | _ =>
      match post.preview_source with
      | some (c :: cs) => some (unescapeAmp (c :: cs))
      | _ =>
        if post.is_gallery then
          match post.media_metadata with
          | some ((_, some (c :: cs)) :: _) => some (unescapeAmp (c :: cs))
          | _ => none
        else none

/-- isMemePost (utils.ts lines 131-134): the visual-content predicate. -/
def isMemePost (post : RawPost) : Bool :=
  [PostType.image, PostType.gif, PostType.video, PostType.gallery].contains
    (determinePostType post)

/-- shouldIncludePost (scraper.ts lines 87-108). -/
def shouldIncludePost (config : ScraperConfig) (post : RawPost) : Bool :=
  if !isMemePost post then false
  else if post.over_18 && !config.includeNSFW then false
  else if post.score < config.minUpvotes then false
  else if post.num_comments < config.minComments then false
  else true

/-- The text handed to the ticker extractor:
`post.title + ' ' + (post.selftext || '')` (scraper.ts line 114). -/
def fullText (post : RawPost) : Str :=
  post.title ++ [' '] ++ post.selftext.getD []

/-- convertToMemePost (scraper.ts lines 113-135).  `post.author.name` is a
bare member access: when the author object is absent the JS code throws a
TypeError, modelled by the error branch; every other consumed field is
defaulted (`selftext || ''`, `total_awards_received || 0`, getMediaUrl
returning null). -/
def convertToMemePost (post : RawPost) (subredditName : Str) : Except Str MemePost :=
  match post.author with
  | none => .error (str "TypeError: cannot read name of undefined author")
  | some authorName =>
    .ok
      { id := post.id
        title := post.title
        url := str "https://reddit.com" ++ post.permalink
        mediaUrl := getMediaUrl post
        author := authorName
        subreddit := subredditName
        createdAt := post.created_utc * 1000
        engagement :=
          { upvotes := post.score
            upvoteRatio := post.upvote_ratio
            comments := post.num_comments
            awards := jsOrNum post.total_awards_received 0 }
        tickers := extractTickers (fullText post)
        postType := determinePostType post
        isNSFW := post.over_18 }

/-- The per-post loop of fetchFromSubreddit (scraper.ts lines 74-79): filter
with shouldIncludePost, convert accepted posts; a throw inside the conversion
aborts the loop and propagates. -/
def processPosts (config : ScraperConfig) (sub : Str) : List RawPost → Except Str (List MemePost)
  | [] => .ok []
  | p :: ps =>
    if shouldIncludePost config p then
      match convertToMemePost p sub with
      | .error e => .error e
      | .ok m =>
        match processPosts config sub ps with
        | .error e => .error e
        | .ok ms => .ok (m :: ms)
    else
      processPosts config sub ps

/-- fetchFromSubreddit (scraper.ts lines 66-82).  The external fetch
collaborator (snoowrap getHot with the configured limit) is passed in as a
function from subreddit name and limit to a list of raw posts or a failure. -/
def fetchFromSubreddit (fetch : Str → Int → Except Str (List RawPost))
    (config : ScraperConfig) (sub : Str) : Except Str (List MemePost) :=
  match fetch sub config.limit with
  | .error e => .error e
  | .ok posts => processPosts config sub posts

/-- Ordering used by a JS stable sort with comparator
`(a, b) => key(b) - key(a)`: a may precede b exactly when key b ≤ key a. -/
def keyOrder {α β : Type} [LinearOrder β] (key : α → β) : α → α → Prop :=
  fun a b => key b ≤ key a

instance {α β : Type} [LinearOrder β] (key : α → β) : DecidableRel (keyOrder key) :=
  fun a b => inferInstanceAs (Decidable (key b ≤ key a))

instance {α β : Type} [LinearOrder β] (key : α → β) : IsTotal α (keyOrder key) :=
  ⟨fun a b => le_total (key b) (key a)⟩

instance {α β : Type} [LinearOrder β] (key : α → β) : IsTrans α (keyOrder key) :=
  ⟨fun _ _ _ h1 h2 => le_trans h2 h1⟩

/-- The upvote key of the aggregator sort comparator
`(a, b) => b.engagement.upvotes - a.engagement.upvotes`. -/
def upvoteKey (m : MemePost) : Int := m.engagement.upvotes

/-- `allMemes.sort((a, b) => b.engagement.upvotes - a.engagement.upvotes)`
(scraper.ts line 58): a stable sort, descending by upvotes (Array.sort is
stable per the ECMAScript specification; insertion sort with the non-strict
comparator realizes exactly that behavior). -/
def sortPosts (l : List MemePost) : List MemePost :=
  l.insertionSort (keyOrder upvoteKey)

/-- The accumulation loop of fetchMemes (scraper.ts lines 44-55) before the
sort: iterate sources in order; a successful source appends its memes, a
failing source appends nothing and its error is logged (console.error),
modelled by the second component. -/
def fetchMemesAcc (fetch : Str → Int → Except Str (List RawPost))
    (config : ScraperConfig) : List MemePost × List (Str × Str) :=
  config.subreddits.foldl
    (fun acc sub =>
      match fetchFromSubreddit fetch config sub with
      | .ok memes => (acc.1 ++ memes, acc.2)
      | .error e => (acc.1, acc.2 ++ [(sub, e)]))
    ([], [])

/-- fetchMemes (scraper.ts lines 43-61): accumulate across sources, then sort
by upvotes descending.  Returns the posts and the error log. -/
def fetchMemes (fetch : Str → Int → Except Str (List RawPost))
    (config : ScraperConfig) : List MemePost × List (Str × Str) :=
  (sortPosts (fetchMemesAcc fetch config).1, (fetchMemesAcc fetch config).2)

/-- One `tickerCounts.set(ticker, (tickerCounts.get(ticker) || 0) + 1)` step on
the insertion-ordered map: increment in place if present, else append with
count 1 (JS Map.set keeps the position of an existing key). -/
def bump : List (Str × Nat) → Str → List (Str × Nat)
  | [], t => [(t, 1)]
  | (k, n) :: rest, t =>
    if k = t then (k, n + 1) :: rest else (k, n) :: bump rest t

/-- The nested counting loops of getTrendingTickers (scraper.ts lines 154-158). -/
def countAll (posts : List MemePost) : List (Str × Nat) :=
  posts.foldl (fun m meme => meme.tickers.foldl bump m) []

/-- The concatenation of every post's ticker list in fetch order (what the
nested loops traverse). -/
def flatTokens : List MemePost → List Str
  | [] => []
  | p :: ps => p.tickers ++ flatTokens ps

/-- The count key of the comparator `(a, b) => b[1] - a[1]`. -/
def countKey (e : Str × Nat) : Nat := e.2

/-- The frequency-table core of getTrendingTickers (scraper.ts lines 152-165):
count every ticker occurrence across the posts, then stable-sort the
insertion-ordered entries descending by count. -/
def computeTokenFrequency (posts : List MemePost) : List (Str × Nat) :=
  (countAll posts).insertionSort (keyOrder countKey)

/-- getTrendingTickers (scraper.ts lines 150-166): fetch, then tally. -/
def getTrendingTickers (fetch : Str → Int → Except Str (List RawPost))
    (config : ScraperConfig) : List (Str × Nat) :=
  computeTokenFrequency (fetchMemes fetch config).1

/-- Deduplication that keeps the first occurrence of every element: the
spec-side description of both the ticker Set ("each distinct token is recorded
the first time it appears; output order follows first appearance"). -/
def dedupKeepFirst : List Str → List Str
  | [] => []
  | t :: ts => t :: dedupKeepFirst (ts.filter (fun s => decide (s ≠ t)))
termination_by l => l.length
decreasing_by
  simp only [List.length_cons]
  exact Nat.lt_succ_of_le (List.length_filter_le _ _)

/-- First-match evaluation of an ordered rule list, defaulting to `link`:
the spec-side reading of the classifier's nine-step resolution order. -/
def firstMatch : List (Bool × PostType) → PostType
  | [] => .link
  | (c, t) :: rest => if c then t else firstMatch rest

/-- The eight guarded rules of spec section 4.2 in their stated order, as read
from the claim (suffix tests on the lowercased URL, domain markers as
substrings of the URL). -/
def categoryRules (post : RawPost) : List (Bool × PostType) :=
  let url := urlLower post
  [ (post.is_gallery, .gallery),
    (post.post_hint == some (str "image"), .image),
    (post.post_hint == some (str "hosted:video") || post.post_hint == some (str "rich:video"), .video),
    ((str ".gif").isSuffixOf url || (str ".gifv").isSuffixOf url, .gif),
    ((str ".jpg").isSuffixOf url || (str ".jpeg").isSuffixOf url ||
     (str ".png").isSuffixOf url || (str ".webp").isSuffixOf url, .image),
    ((str ".mp4").isSuffixOf url || (str ".webm").isSuffixOf url ||
     (str ".mov").isSuffixOf url, .video),
    (containsStr url (str "i.redd.it") || containsStr url (str "i.imgur.com"), .image),
    (containsStr url (str "v.redd.it"), .video) ]

/-- The classifier as the spec states it: first matching rule wins, else link. -/
def specCategory (post : RawPost) : PostType :=
  firstMatch (categoryRules post)

/-! ### Helper lemmas about deduplication and extraction -/

theorem mem_dedupKeepFirst (l : List Str) (t : Str) : t ∈ dedupKeepFirst l ↔ t ∈ l := by
  induction l using dedupKeepFirst.induct with
  | case1 => simp [dedupKeepFirst]
  | case2 a ts ih =>
    rw [dedupKeepFirst]
    simp only [List.mem_cons, ih, List.mem_filter, decide_eq_true_eq]
    by_cases h : t = a
    · simp [h]
    · simp [h]

theorem nodup_dedupKeepFirst (l : List Str) : (dedupKeepFirst l).Nodup := by
  induction l using dedupKeepFirst.induct with
  | case1 => simp [dedupKeepFirst]
  | case2 a ts ih =>
    rw [dedupKeepFirst]
    refine List.nodup_cons.mpr ⟨?_, ih⟩
    intro hmem
    rw [mem_dedupKeepFirst] at hmem
    simp [List.mem_filter] at hmem

theorem foldl_pushFirst (l : List Str) : ∀ acc : List Str,
    l.foldl pushFirst acc = acc ++ dedupKeepFirst (l.filter (fun t => decide (t ∉ acc))) := by
  induction l with
  | nil => intro acc; simp [dedupKeepFirst]
  | cons t ts ih =>
    intro acc
    by_cases h : t ∈ acc
    · have hf : List.filter (fun s => decide (s ∉ acc)) (t :: ts) =
          List.filter (fun s => decide (s ∉ acc)) ts := by simp [h]
      rw [List.foldl_cons, pushFirst, if_pos h, ih acc, hf]
    · have hf : List.filter (fun s => decide (s ∉ acc)) (t :: ts) =
          t :: List.filter (fun s => decide (s ∉ acc)) ts := by simp [h]
      rw [List.foldl_cons, pushFirst, if_neg h, ih (acc ++ [t]), hf, dedupKeepFirst,
        List.append_assoc, List.singleton_append]
      congr 2
      rw [List.filter_filter]
      congr 1
      apply List.filter_congr
      intro x _
      by_cases h1 : x ∈ acc <;> by_cases h2 : x = t <;>
        simp [h1, h2, List.mem_append]

theorem extractTickers_eq_dedup (text : Str) :
    extractTickers text = dedupKeepFirst (scanMatches text) := by
  rw [extractTickers, foldl_pushFirst]
  simp

theorem extractTickers_nodup (text : Str) : (extractTickers text).Nodup := by
  rw [extractTickers_eq_dedup]; exact nodup_dedupKeepFirst _

theorem scanMatches_valid (text : Str) :
    ∀ t ∈ scanMatches text, 1 ≤ t.length ∧ t.length ≤ 5 ∧ ∀ c ∈ t, isUpperLatin c = true := by
  induction text with
  | nil => simp [scanMatches]
  | cons c rest ih =>
    simp only [scanMatches]
    by_cases hc : c = '$'
    · rw [if_pos hc]
      by_cases hcond : 1 ≤ (rest.takeWhile isUpperLatin).length ∧
          (rest.takeWhile isUpperLatin).length ≤ 5 ∧
          boundaryOk (rest.dropWhile isUpperLatin) = true
      · rw [if_pos hcond]
        intro t ht
        rcases List.mem_cons.mp ht with rfl | hmem
        · exact ⟨hcond.1, hcond.2.1, fun c hc => List.mem_takeWhile_imp hc⟩
        · exact ih t hmem
      · rw [if_neg hcond]; exact ih
    · rw [if_neg hc]; exact ih

theorem extractTickers_mem_valid (text : Str) :
    ∀ t ∈ extractTickers text, 1 ≤ t.length ∧ t.length ≤ 5 ∧ ∀ c ∈ t, isUpperLatin c = true := by
  intro t ht
  rw [extractTickers_eq_dedup, mem_dedupKeepFirst] at ht
  exact scanMatches_valid text t ht

/-! ### Helper lemmas about the stable sort -/

theorem filter_orderedInsert {α β : Type} [LinearOrder β] (key : α → β) (v : β)
    (x : α) (l : List α) :
    (List.orderedInsert (keyOrder key) x l).filter (fun a => decide (key a = v)) =
      if key x = v then x :: l.filter (fun a => decide (key a = v))
      else l.filter (fun a => decide (key a = v)) := by
  induction l with
  | nil =>
    simp only [List.orderedInsert, List.filter_cons, List.filter_nil]
    by_cases h : key x = v <;> simp [h]
  | cons y ys ih =>
    rw [List.orderedInsert]
    by_cases hxy : keyOrder key x y
    · rw [if_pos hxy]
      by_cases h : key x = v <;> simp [List.filter_cons, h]
    · rw [if_neg hxy]
      have hlt : key x < key y := lt_of_not_le hxy
      by_cases h : key x = v
      · have hy : key y ≠ v := by
          intro hyv
          exact absurd (hyv ▸ hlt) (by simp [h])
        simp [List.filter_cons, hy, ih, h]
      · by_cases hy : key y = v <;> simp [List.filter_cons, hy, ih, h]

theorem filter_insertionSort {α β : Type} [LinearOrder β] (key : α → β) (v : β) (l : List α) :
    (l.insertionSort (keyOrder key)).filter (fun a => decide (key a = v)) =
      l.filter (fun a => decide (key a = v)) := by
  induction l with
  | nil => rfl
  | cons x xs ih =>
    rw [List.insertionSort, filter_orderedInsert, List.filter_cons]
    by_cases h : key x = v <;> simp [h, ih]

/-! ### Helper lemmas about the frequency map -/

/-- Reading the count of a key out of the insertion-ordered association list
(first entry with the key; keys never repeat once built by bump). -/
def lookupCount : List (Str × Nat) → Str → Nat
  | [], _ => 0
  | (k, n) :: rest, t => if k = t then n else lookupCount rest t

/-- Key sequence of the association list, in insertion order. -/
def keysOf (l : List (Str × Nat)) : List Str := l.map Prod.fst

theorem lookupCount_bump (l : List (Str × Nat)) (t s : Str) :
    lookupCount (bump l t) s = if s = t then lookupCount l t + 1 else lookupCount l s := by
  induction l with
  | nil =>
    by_cases h : s = t
    · simp [bump, lookupCount, h]
    · have h2 : ¬t = s := fun hh => h hh.symm
      simp [bump, lookupCount, h, h2]
  | cons e rest ih =>
    obtain ⟨k, n⟩ := e
    by_cases hk : k = t
    · subst hk
      by_cases hs : s = k
      · subst hs
        simp [bump, lookupCount]
      · have hks : ¬k = s := fun hh => hs hh.symm
        simp [bump, lookupCount, hs, hks]
    · by_cases hks : k = s
      · subst hks
        have hst : ¬k = t := hk
        simp [bump, lookupCount, hk, hst]
      · simp [bump, lookupCount, hk, hks, ih]

theorem keysOf_bump (l : List (Str × Nat)) (t : Str) :
    keysOf (bump l t) = if t ∈ keysOf l then keysOf l else keysOf l ++ [t] := by
  induction l with
  | nil => simp [bump, keysOf]
  | cons e rest ih =>
    obtain ⟨k, n⟩ := e
    by_cases hk : k = t
    · subst hk
      simp [bump, keysOf]
    · have hne : ¬t = k := fun hh => hk hh.symm
      simp only [bump, if_neg hk, keysOf, List.map_cons] at ih ⊢
      rw [ih]
      simp only [List.mem_cons]
      by_cases hm : t ∈ List.map Prod.fst rest
      · simp [hm]
      · simp [hm, hne]

theorem lookupCount_of_mem (l : List (Str × Nat)) (h : (keysOf l).Nodup) :
    ∀ e ∈ l, lookupCount l e.1 = e.2 := by
  induction l with
  | nil => intro e he; cases he
  | cons f rest ih =>
    obtain ⟨k, n⟩ := f
    intro e he
    rcases List.mem_cons.mp he with rfl | hmem
    · simp [lookupCount]
    · have hk : k ∉ keysOf rest := (List.nodup_cons.mp h).1
      have hne : k ≠ e.1 := by
        intro hh
        exact hk (hh ▸ List.mem_map.mpr ⟨e, hmem, rfl⟩)
      simp only [lookupCount, if_neg hne]
      exact ih (List.nodup_cons.mp h).2 e hmem

theorem countTokens_snoc (ts : List Str) (t : Str) :
    (ts ++ [t]).foldl bump [] = bump (ts.foldl bump []) t := by
  rw [List.foldl_append]; rfl

theorem dedupKeepFirst_snoc (ts : List Str) (t : Str) :
    dedupKeepFirst (ts ++ [t]) =
      if t ∈ ts then dedupKeepFirst ts else dedupKeepFirst ts ++ [t] := by
  induction ts using dedupKeepFirst.induct with
  | case1 => simp [dedupKeepFirst]
  | case2 a ts ih =>
    rw [List.cons_append, dedupKeepFirst, List.filter_append]
    by_cases hta : t = a
    · have hfa : List.filter (fun s => decide (s ≠ a)) [t] = [] := by simp [hta]
      rw [hfa, List.append_nil]
      have : t ∈ a :: ts := by simp [hta]
      rw [if_pos this, dedupKeepFirst]
    · have hfa : List.filter (fun s => decide (s ≠ a)) [t] = [t] := by simp [hta]
      rw [hfa, ih]
      have hmem : t ∈ List.filter (fun s => decide (s ≠ a)) ts ↔ t ∈ ts := by
        simp [List.mem_filter, hta]
      by_cases hm : t ∈ ts
      · rw [if_pos (hmem.mpr hm), if_pos (by simp [hm]), dedupKeepFirst]
      · rw [if_neg (fun hc => hm (hmem.mp hc)), if_neg (by simp [hta, hm]), dedupKeepFirst,
          List.cons_append]

theorem keysOf_countTokens (ts : List Str) :
    keysOf (ts.foldl bump []) = dedupKeepFirst ts := by
  induction ts using List.reverseRecOn with
  | nil => simp [keysOf, dedupKeepFirst]
  | append_singleton ts t ih =>
    rw [countTokens_snoc, keysOf_bump, ih, dedupKeepFirst_snoc]
    simp only [mem_dedupKeepFirst]

theorem countTokens_counts (ts : List Str) (s : Str) :
    lookupCount (ts.foldl bump []) s = ts.count s := by
  induction ts using List.reverseRecOn with
  | nil => rfl
  | append_singleton ts t ih =>
    rw [countTokens_snoc, lookupCount_bump, List.count_append]
    by_cases h : s = t
    · subst h
      simp [ih, List.count_cons]
    · have h2 : ¬t = s := fun hh => h hh.symm
      simp [h, ih, List.count_cons, h2]

theorem countTokens_mem_counts (ts : List Str) :
    ∀ e ∈ ts.foldl bump [], e.2 = ts.count e.1 := by
  intro e he
  have hn : (keysOf (ts.foldl bump [])).Nodup := by
    rw [keysOf_countTokens]; exact nodup_dedupKeepFirst _
  have h1 := lookupCount_of_mem _ hn e he
  rw [countTokens_counts] at h1
  exact h1.symm

theorem countAll_eq_foldl (posts : List MemePost) :
    countAll posts = (flatTokens posts).foldl bump [] := by
  suffices h : ∀ m : List (Str × Nat),
      posts.foldl (fun m meme => meme.tickers.foldl bump m) m = (flatTokens posts).foldl bump m from
    h []
  induction posts with
  | nil => intro m; rfl
  | cons p ps ih =>
    intro m
    rw [List.foldl_cons, flatTokens, List.foldl_append, ih]

theorem count_eq_one_of_nodup_mem {l : List Str} {a : Str} (hn : l.Nodup) (hm : a ∈ l) :
    l.count a = 1 := by
  induction l with
  | nil => cases hm
  | cons b l ih =>
    rw [List.count_cons]
    rcases List.mem_cons.mp hm with rfl | hmem
    · have hnot : a ∉ l := (List.nodup_cons.mp hn).1
      rw [List.count_eq_zero_of_not_mem hnot]
      simp
    · have hb : b ≠ a := by
        rintro rfl
        exact (List.nodup_cons.mp hn).1 hmem
      rw [ih (List.nodup_cons.mp hn).2 hmem]
      simp [hb]

theorem count_flatTokens_nodup (t : Str) :
    ∀ posts : List MemePost, (∀ p ∈ posts, p.tickers.Nodup) →
      (flatTokens posts).count t = (posts.filter (fun p => decide (t ∈ p.tickers))).length := by
  intro posts
  induction posts with
  | nil => intro _; rfl
  | cons p ps ih =>
    intro h
    have htail := ih (fun q hq => h q (List.mem_cons_of_mem p hq))
    have hp : p.tickers.Nodup := h p (List.mem_cons_self p ps)
    rw [flatTokens, List.count_append, List.filter_cons]
    by_cases hm : t ∈ p.tickers
    · have h3 : p.tickers.count t = 1 := count_eq_one_of_nodup_mem hp hm
      simp [hm, h3, htail, Nat.add_comm]
    · have h0 : p.tickers.count t = 0 := List.count_eq_zero_of_not_mem hm
      simp [hm, h0, htail]

/-! ### Helper lemmas about the aggregation pipeline -/

theorem convert_ok_tickers {raw : RawPost} {sub : Str} {m : MemePost}
    (h : convertToMemePost raw sub = .ok m) : m.tickers = extractTickers (fullText raw) := by
  unfold convertToMemePost at h
  cases ha : raw.author with
  | none => rw [ha] at h; cases h
  | some a =>
    rw [ha] at h
    cases h
    rfl

theorem processPosts_mem (config : ScraperConfig) (sub : Str) :
    ∀ (l : List RawPost) (ms : List MemePost), processPosts config sub l = .ok ms →
      ∀ m ∈ ms, ∃ raw, convertToMemePost raw sub = .ok m := by
  intro l
  induction l with
  | nil =>
    intro ms h m hm
    rw [processPosts] at h
    cases h
    cases hm
  | cons p ps ih =>
    intro ms h m hm
    rw [processPosts] at h
    by_cases hincl : shouldIncludePost config p = true
    · rw [if_pos hincl] at h
      cases hc : convertToMemePost p sub with
      | error e => rw [hc] at h; cases h
      | ok m0 =>
        rw [hc] at h
        cases hp : processPosts config sub ps with
        | error e => rw [hp] at h; cases h
        | ok ms0 =>
          rw [hp] at h
          cases h
          rcases List.mem_cons.mp hm with rfl | hmem
          · exact ⟨p, hc⟩
          · exact ih ms0 hp m hmem
    · rw [if_neg hincl] at h
      exact ih ms h m hm

theorem fetchFromSubreddit_mem (fetch : Str → Int → Except Str (List RawPost))
    (config : ScraperConfig) (sub : Str) (ms : List MemePost)
    (h : fetchFromSubreddit fetch config sub = .ok ms) :
    ∀ m ∈ ms, ∃ raw, convertToMemePost raw sub = .ok m := by
  rw [fetchFromSubreddit] at h
  cases hf : fetch sub config.limit with
  | error e => rw [hf] at h; cases h
  | ok posts =>
    rw [hf] at h
    exact processPosts_mem config sub posts ms h

/-- The per-source accumulation step of fetchMemes. -/
def accStep (fetch : Str → Int → Except Str (List RawPost)) (config : ScraperConfig)
    (acc : List MemePost × List (Str × Str)) (sub : Str) : List MemePost × List (Str × Str) :=
  match fetchFromSubreddit fetch config sub with
  | .ok memes => (acc.1 ++ memes, acc.2)
  | .error e => (acc.1, acc.2 ++ [(sub, e)])

theorem fetchMemesAcc_eq (fetch : Str → Int → Except Str (List RawPost))
    (config : ScraperConfig) :
    fetchMemesAcc fetch config = config.subreddits.foldl (accStep fetch config) ([], []) := rfl

theorem foldl_accStep_mem (fetch : Str → Int → Except Str (List RawPost))
    (config : ScraperConfig) :
    ∀ (subs : List Str) (init : List MemePost × List (Str × Str)) (p : MemePost),
      p ∈ (subs.foldl (accStep fetch config) init).1 →
      p ∈ init.1 ∨ ∃ sub raw, convertToMemePost raw sub = .ok p := by
  intro subs
  induction subs with
  | nil => intro init p hp; exact Or.inl hp
  | cons sub subs ih =>
    intro init p hp
    rw [List.foldl_cons] at hp
    rcases ih _ p hp with hmem | hex
    · unfold accStep at hmem
      cases hf : fetchFromSubreddit fetch config sub with
      | ok memes =>
        rw [hf] at hmem
        rcases List.mem_append.mp hmem with h1 | h2
        · exact Or.inl h1
        · exact Or.inr ⟨sub, fetchFromSubreddit_mem fetch config sub memes hf p h2⟩
      | error e =>
        rw [hf] at hmem
        exact Or.inl hmem
    · exact Or.inr hex

theorem fetchMemes_tickers_nodup (fetch : Str → Int → Except Str (List RawPost))
    (config : ScraperConfig) :
    ∀ p ∈ (fetchMemes fetch config).1, p.tickers.Nodup := by
  intro p hp
  have hp2 : p ∈ (fetchMemesAcc fetch config).1 := (List.mem_insertionSort _).mp hp
  rw [fetchMemesAcc_eq] at hp2
  rcases foldl_accStep_mem fetch config config.subreddits ([], []) p hp2 with hmem | hex
  · cases hmem
  · obtain ⟨sub, raw, hconv⟩ := hex
    rw [convert_ok_tickers hconv]
    exact extractTickers_nodup _

/-! ### Claim theorems -/

/-- Example post for C1: both the gallery flag and a .jpg URL. -/
def galleryJpgPost : RawPost :=
  { is_gallery := true, url := some (str "https://a.site/pic.jpg") }

/-- Example post for C1: post-type hint image together with a .mp4 URL. -/
def hintImageMp4Post : RawPost :=
  { post_hint := some (str "image"), url := some (str "https://a.site/clip.mp4") }

/-- C1: determinePostType resolves the media category by the fixed nine-step
first-match order (gallery flag; hint image; hint hosted:video/rich:video;
case-insensitive URL suffixes .gif/.gifv, then .jpg/.jpeg/.png/.webp, then
.mp4/.webm/.mov; direct-image domain marker in the URL; direct-video domain
marker; else link), stated as equality with the rule-list evaluation
specCategory; in particular a gallery-flagged post with a .jpg URL is gallery,
and a hint-image post with a .mp4 URL is image. -/
theorem determinePostType_priority_order :
    (∀ post : RawPost, determinePostType post = specCategory post) ∧
    determinePostType galleryJpgPost = PostType.gallery ∧
    determinePostType hintImageMp4Post = PostType.image :=
  ⟨fun _ => rfl, by decide, by decide⟩

/-- C9: the classifier is total — every raw post, including one with an absent
or malformed URL and no hints or flags, is assigned exactly one of the five
enumerated categories, and when none of the eight positive rules applies the
result is link. -/
theorem determinePostType_total :
    (∀ post : RawPost,
      determinePostType post = PostType.image ∨ determinePostType post = PostType.gif ∨
      determinePostType post = PostType.video ∨ determinePostType post = PostType.gallery ∨
      determinePostType post = PostType.link) ∧
    (∀ post : RawPost,
      post.is_gallery = false →
      post.post_hint ≠ some (str "image") →
      post.post_hint ≠ some (str "hosted:video") →
      post.post_hint ≠ some (str "rich:video") →
      (∀ s ∈ [str ".gif", str ".gifv", str ".jpg", str ".jpeg", str ".png", str ".webp",
              str ".mp4", str ".webm", str ".mov"], s.isSuffixOf (urlLower post) = false) →
      (∀ d ∈ [str "i.redd.it", str "i.imgur.com", str "v.redd.it"],
        containsStr (urlLower post) d = false) →
      determinePostType post = PostType.link) ∧
    determinePostType ({} : RawPost) = PostType.link := by
  refine ⟨?_, ?_, by decide⟩
  · intro post
    rcases h : determinePostType post <;> simp
  · intro post h1 h2 h3 h4 h5 h6
    have e2 : (post.post_hint == some (str "image")) = false := beq_eq_false_iff_ne.mpr h2
    have e3 : (post.post_hint == some (str "hosted:video")) = false := beq_eq_false_iff_ne.mpr h3
    have e4 : (post.post_hint == some (str "rich:video")) = false := beq_eq_false_iff_ne.mpr h4
    have s1 := h5 (str ".gif") (by simp)
    have s2 := h5 (str ".gifv") (by simp)
    have s3 := h5 (str ".jpg") (by simp)
    have s4 := h5 (str ".jpeg") (by simp)
    have s5 := h5 (str ".png") (by simp)
    have s6 := h5 (str ".webp") (by simp)
    have s7 := h5 (str ".mp4") (by simp)
    have s8 := h5 (str ".webm") (by simp)
    have s9 := h5 (str ".mov") (by simp)
    have d1 := h6 (str "i.redd.it") (by simp)
    have d2 := h6 (str "i.imgur.com") (by simp)
    have d3 := h6 (str "v.redd.it") (by simp)
    simp [determinePostType, h1, e2, e3, e4, s1, s2, s3, s4, s5, s6, s7, s8, s9, d1, d2, d3]

/-- Witness for C9: the fall-through clause applied to a concrete post whose
URL is present but malformed (matches no suffix or domain rule). -/
theorem determinePostType_total_witness :
    determinePostType { url := some (str "mailto:someone@@nowhere") } = PostType.link :=
  determinePostType_total.2.1 { url := some (str "mailto:someone@@nowhere") }
    (by decide) (by decide) (by decide) (by decide) (by decide) (by decide)

/-- C2: extractTickers returns exactly the regex matches (a dollar sign
followed by 1-5 uppercase letters with a word boundary after, dollar sign
stripped) deduplicated keeping first occurrences in text order; the result is
duplicate-free, every returned token has 1-5 uppercase Latin letters, and a
text with no matches yields the empty result. -/
theorem extractTickers_spec :
    ∀ text : Str,
      extractTickers text = dedupKeepFirst (scanMatches text) ∧
      (extractTickers text).Nodup ∧
      (∀ t ∈ extractTickers text,
        1 ≤ t.length ∧ t.length ≤ 5 ∧ ∀ c ∈ t, isUpperLatin c = true) ∧
      (scanMatches text = [] → extractTickers text = []) := by
  intro text
  refine ⟨extractTickers_eq_dedup text, extractTickers_nodup text,
    extractTickers_mem_valid text, ?_⟩
  intro h
  rw [extractTickers, h]
  rfl

/-- Witness for C2 at concrete inputs: the spec example text yields SPY then
TSLA (first-appearance order, deduplicated), the returned token SPY is a valid
1-5 uppercase token, and a token-free text yields the empty result. -/
theorem extractTickers_spec_witness :
    extractTickers (str "$SPY up, $TSLA down, $SPY again") = [str "SPY", str "TSLA"] ∧
    (1 ≤ (str "SPY").length ∧ (str "SPY").length ≤ 5 ∧
      ∀ c ∈ str "SPY", isUpperLatin c = true) ∧
    extractTickers (str "no tokens here") = [] :=
  ⟨by decide,
   (extractTickers_spec (str "$SPY up, $TSLA down, $SPY again")).2.2.1 (str "SPY") (by decide),
   (extractTickers_spec (str "no tokens here")).2.2.2 (by decide)⟩

/-- C3: shouldIncludePost rejects a post exactly when it lacks visual content
(classified category outside image/gif/video/gallery), or is adult-flagged
while the configuration excludes adult content, or its score is below the
configured minimum upvotes, or its comment count is below the configured
minimum comments; otherwise it accepts. -/
theorem shouldIncludePost_reject_iff :
    ∀ (config : ScraperConfig) (post : RawPost),
      shouldIncludePost config post = false ↔
        (determinePostType post ∉
            [PostType.image, PostType.gif, PostType.video, PostType.gallery] ∨
          (post.over_18 = true ∧ config.includeNSFW = false) ∨
          post.score < config.minUpvotes ∨
          post.num_comments < config.minComments) := by
  intro config post
  have hvis : isMemePost post = false ↔
      determinePostType post ∉
        [PostType.image, PostType.gif, PostType.video, PostType.gallery] := by
    rw [isMemePost]
    rcases determinePostType post <;> simp
  by_cases h1 : isMemePost post <;>
    by_cases h2 : post.over_18 <;>
    by_cases h3 : config.includeNSFW <;>
    by_cases h4 : post.score < config.minUpvotes <;>
    by_cases h5 : post.num_comments < config.minComments <;>
    simp [shouldIncludePost, h1, h2, h3, h4, h5, not_lt.mp, hvis] at * <;>
    tauto

/-- C4: when one configured source fails and another succeeds, fetchMemes
returns exactly the successful source's filtered, normalized posts (sorted),
the failing source contributes zero posts, and the failure lands in the log
instead of being raised. -/
theorem fetchMemes_partial_failure :
    ∀ (fetch : Str → Int → Except Str (List RawPost)) (config : ScraperConfig)
      (a b e : Str) (ps : List MemePost),
      config.subreddits = [a, b] →
      fetch a config.limit = .error e →
      fetchFromSubreddit fetch config b = .ok ps →
      fetchMemes fetch config = (sortPosts ps, [(a, e)]) := by
  intro fetch config a b e ps hsubs hfa hfb
  have ha : fetchFromSubreddit fetch config a = .error e := by
    rw [fetchFromSubreddit, hfa]
  have hacc : fetchMemesAcc fetch config = (ps, [(a, e)]) := by
    rw [fetchMemesAcc_eq, hsubs]
    simp only [List.foldl_cons, List.foldl_nil, accStep, ha, hfb, List.nil_append]
  unfold fetchMemes
  rw [hacc]

/-- Raw post fixture: a valid, includable image post by alice. -/
def rawGood : RawPost :=
  { author := some (str "alice"), url := some (str "https://i.redd.it/b.jpg"),
    score := 500, num_comments := 12, title := str "good $GME" }

/-- The canonical post convertToMemePost produces from rawGood in source bbb. -/
def memeGood : MemePost :=
  { id := [], title := str "good $GME", url := str "https://reddit.com",
    mediaUrl := none, author := str "alice", subreddit := str "bbb", createdAt := 0,
    engagement := { upvotes := 500, upvoteRatio := 0, comments := 12, awards := 0 },
    tickers := [str "GME"], postType := .image, isNSFW := false }

/-- Fetch fixture: source aaa fails, every other source returns rawGood. -/
def fetchW : Str → Int → Except Str (List RawPost) :=
  fun s _ => if s = str "aaa" then .error (str "http 500") else .ok [rawGood]

/-- Config fixture with the two sources aaa and bbb. -/
def cfgW : ScraperConfig := buildConfig { subreddits := some [str "aaa", str "bbb"] }

/-- Witness for C4: concrete two-source run where aaa fails and bbb yields one
post; the result is that post alone, with the failure logged. -/
theorem fetchMemes_partial_failure_witness :
    cfgW.subreddits = [str "aaa", str "bbb"] ∧
    fetchW (str "aaa") cfgW.limit = .error (str "http 500") ∧
    fetchFromSubreddit fetchW cfgW (str "bbb") = .ok [memeGood] ∧
    fetchMemes fetchW cfgW = (sortPosts [memeGood], [(str "aaa", str "http 500")]) :=
  ⟨rfl, rfl, rfl,
   fetchMemes_partial_failure fetchW cfgW (str "aaa") (str "bbb") (str "http 500")
     [memeGood] rfl rfl rfl⟩

/-- Post fixture for the frequency example: token set SPY, TSLA. -/
def postSPYTSLA : MemePost :=
  { id := [], title := [], url := [], mediaUrl := none, author := [], subreddit := [],
    createdAt := 0, engagement := { upvotes := 1, upvoteRatio := 0, comments := 0, awards := 0 },
    tickers := [str "SPY", str "TSLA"], postType := .image, isNSFW := false }

/-- Post fixture for the frequency example: token set SPY. -/
def postSPY : MemePost := { postSPYTSLA with tickers := [str "SPY"] }

/-- C5: computeTokenFrequency flattens every post's token set, counts
occurrences per token (entries carry the exact occurrence count, keys are the
distinct flattened tokens in first-occurrence order before sorting), and
returns the table sorted descending by count with ties kept stably in
first-occurrence order; on token sets [[SPY, TSLA], [SPY]] it yields SPY:2
then TSLA:1. -/
theorem computeTokenFrequency_spec :
    (∀ posts : List MemePost,
      (∀ e ∈ computeTokenFrequency posts, e.2 = (flatTokens posts).count e.1) ∧
      (∀ t : Str, (∃ n, (t, n) ∈ computeTokenFrequency posts) ↔ t ∈ flatTokens posts) ∧
      List.Sorted (fun a b : Str × Nat => b.2 ≤ a.2) (computeTokenFrequency posts) ∧
      (∀ n : Nat, (computeTokenFrequency posts).filter (fun e => decide (e.2 = n)) =
        (countAll posts).filter (fun e => decide (e.2 = n))) ∧
      keysOf (countAll posts) = dedupKeepFirst (flatTokens posts)) ∧
    computeTokenFrequency [postSPYTSLA, postSPY] = [(str "SPY", 2), (str "TSLA", 1)] := by
  refine ⟨?_, by decide⟩
  intro posts
  refine ⟨?_, ?_, List.sorted_insertionSort (keyOrder countKey) _,
    fun n => filter_insertionSort countKey n _, ?_⟩
  · intro e he
    have he2 : e ∈ countAll posts := (List.mem_insertionSort _).mp he
    rw [countAll_eq_foldl] at he2
    exact countTokens_mem_counts _ e he2
  · intro t
    constructor
    · rintro ⟨n, hn⟩
      have h2 : (t, n) ∈ countAll posts := (List.mem_insertionSort _).mp hn
      rw [countAll_eq_foldl] at h2
      have h3 : t ∈ keysOf ((flatTokens posts).foldl bump []) :=
        List.mem_map.mpr ⟨(t, n), h2, rfl⟩
      rw [keysOf_countTokens, mem_dedupKeepFirst] at h3
      exact h3
    · intro ht
      have h3 : t ∈ keysOf ((flatTokens posts).foldl bump []) := by
        rw [keysOf_countTokens, mem_dedupKeepFirst]; exact ht
      obtain ⟨f, hf, hfst⟩ := List.mem_map.mp h3
      refine ⟨f.2, ?_⟩
      have hp : (t, f.2) = f := by rw [← hfst]
      rw [hp]
      rw [← countAll_eq_foldl] at hf
      exact (List.mem_insertionSort _).mpr hf
  · rw [countAll_eq_foldl]
    exact keysOf_countTokens _

/-- Witness for C5: the occurrence-count clause applied at the entry SPY:2 of
the example table, and the membership clause applied at token TSLA. -/
theorem computeTokenFrequency_spec_witness :
    (2 : Nat) = (flatTokens [postSPYTSLA, postSPY]).count (str "SPY") ∧
    (∃ n, (str "TSLA", n) ∈ computeTokenFrequency [postSPYTSLA, postSPY]) :=
  ⟨(computeTokenFrequency_spec.1 [postSPYTSLA, postSPY]).1 (str "SPY", 2) (by decide),
   ((computeTokenFrequency_spec.1 [postSPYTSLA, postSPY]).2.1 (str "TSLA")).mpr (by decide)⟩

/-- C6: the sequence fetchMemes returns is the stable descending-by-upvotes
sort of the accumulated fetch-order sequence: it is sorted descending, a
permutation of the accumulation, and posts of any fixed upvote count appear in
exactly their relative fetch order. -/
theorem fetchMemes_sorted_stable :
    ∀ (fetch : Str → Int → Except Str (List RawPost)) (config : ScraperConfig),
      (fetchMemes fetch config).1 = sortPosts (fetchMemesAcc fetch config).1 ∧
      List.Sorted (fun a b : MemePost => b.engagement.upvotes ≤ a.engagement.upvotes)
        (fetchMemes fetch config).1 ∧
      List.Perm (fetchMemes fetch config).1 (fetchMemesAcc fetch config).1 ∧
      (∀ v : Int,
        ((fetchMemes fetch config).1.filter (fun p => decide (p.engagement.upvotes = v))) =
          ((fetchMemesAcc fetch config).1.filter (fun p => decide (p.engagement.upvotes = v)))) := by
  intro fetch config
  exact ⟨rfl, List.sorted_insertionSort (keyOrder upvoteKey) _,
    List.perm_insertionSort _ _, fun v => filter_insertionSort upvoteKey v _⟩

/-- Raw post fixture: an includable image post whose author object is absent. -/
def rawNoAuthor : RawPost :=
  { url := some (str "https://i.redd.it/x.jpg"), score := 900, num_comments := 40,
    title := str "missing author" }

/-- Config fixture with the single source pics. -/
def cfgPics : ScraperConfig := buildConfig { subreddits := some [str "pics"] }

/-- Fetch fixture: the single source returns the author-less post followed by
a valid post. -/
def fetchPics : Str → Int → Except Str (List RawPost) :=
  fun _ _ => .ok [rawNoAuthor, rawGood]

/-- C7 evaluation: the normalizer does default a missing body text and a
missing media URL, but an author-less raw post makes convertToMemePost throw
(the bare member access author.name), and that single malformed record aborts
the whole source batch — the valid post behind it is discarded too, so
fetchMemes returns zero posts for the source instead of applying a safe
default. -/
theorem missing_author_aborts_batch :
    shouldIncludePost cfgPics rawNoAuthor = true ∧
    (processPosts cfgPics (str "pics") [rawGood]).isOk = true ∧
    processPosts cfgPics (str "pics") [rawNoAuthor, rawGood] =
      .error (str "TypeError: cannot read name of undefined author") ∧
    fetchMemes fetchPics cfgPics =
      ([], [(str "pics", str "TypeError: cannot read name of undefined author")]) ∧
    getMediaUrl ({} : RawPost) = none ∧
    (convertToMemePost { author := some (str "zoe"), title := str "plain title" }
      (str "s")).isOk = true :=
  ⟨rfl, rfl, rfl, rfl, rfl, rfl⟩

/-- Config fixture built from an explicitly empty source list. -/
def cfgEmpty : ScraperConfig := buildConfig { subreddits := some [] }

/-- C8 counterexample: with an explicitly empty source list the aggregator
reports no precondition violation — it returns a normal empty result with an
empty log, although the fetch function used here fails on every call (so any
attempted fetch would have left a log entry). -/
theorem emptySources_no_report :
    fetchMemes (fun _ _ => .error (str "network down")) cfgEmpty = ([], []) := rfl

/-- C8 amended: when the configured source list is empty (the constructor's
defaulting keeps an explicitly empty list, replacing only an absent field),
the aggregator attempts no fetch and returns an empty post list and empty log
without reporting any violation. -/
theorem emptySources_amended :
    (∀ (fetch : Str → Int → Except Str (List RawPost)) (pc : PartialConfig),
      pc.subreddits = some [] → fetchMemes fetch (buildConfig pc) = ([], [])) ∧
    (buildConfig { subreddits := some [] }).subreddits = [] := by
  constructor
  · intro fetch pc h
    have hsub : (buildConfig pc).subreddits = [] := by simp [buildConfig, h]
    unfold fetchMemes fetchMemesAcc
    rw [hsub]
    rfl
  · rfl

/-- Witness for C8 amended: a concrete partial config with an empty source
list and a fetch function that would succeed, yet nothing is fetched. -/
theorem emptySources_amended_witness :
    fetchMemes (fun _ _ => .ok [rawGood]) (buildConfig { subreddits := some [] }) = ([], []) :=
  emptySources_amended.1 (fun _ _ => .ok [rawGood]) { subreddits := some [] } rfl

/-- C10: every post produced by the pipeline has a duplicate-free token set
(tokens are deduplicated at extraction), and therefore, for any post list with
duplicate-free token sets, the frequency table reports for each token the
number of posts whose token set contains it — each post contributes at most
one — not the total number of textual mentions. -/
theorem tokenFrequency_counts_posts :
    (∀ (fetch : Str → Int → Except Str (List RawPost)) (config : ScraperConfig),
      ∀ p ∈ (fetchMemes fetch config).1, p.tickers.Nodup) ∧
    (∀ posts : List MemePost, (∀ p ∈ posts, p.tickers.Nodup) →
      ∀ t n, (t, n) ∈ computeTokenFrequency posts →
        n = (posts.filter (fun p => decide (t ∈ p.tickers))).length) := by
  constructor
  · exact fetchMemes_tickers_nodup
  · intro posts hnd t n hmem
    have h1 : (t, n) ∈ countAll posts := (List.mem_insertionSort _).mp hmem
    rw [countAll_eq_foldl] at h1
    have h2 := countTokens_mem_counts _ _ h1
    rw [count_flatTokens_nodup t posts hnd] at h2
    exact h2

/-- Witness for C10: the pipeline post of the C4 run has duplicate-free
tokens, and in the SPY/TSLA example the reported frequency 2 of SPY equals the
number of posts containing it. -/
theorem tokenFrequency_counts_posts_witness :
    memeGood.tickers.Nodup ∧
    (2 : Nat) = ([postSPYTSLA, postSPY].filter (fun p => decide (str "SPY" ∈ p.tickers))).length :=
  ⟨tokenFrequency_counts_posts.1 fetchW cfgW memeGood (by decide),
   tokenFrequency_counts_posts.2 [postSPYTSLA, postSPY] (by decide) (str "SPY") 2 (by decide)⟩

/-- Witness for C1: the rule-list equality instantiated at the gallery example
post. -/
theorem determinePostType_priority_order_witness :
    determinePostType galleryJpgPost = specCategory galleryJpgPost :=
  determinePostType_priority_order.1 galleryJpgPost

/-- Witness for C3: the reject characterization instantiated at a concrete
config and post (rawGood meets every threshold of cfgW, so both sides are
false). -/
theorem shouldIncludePost_reject_iff_witness :
    shouldIncludePost cfgW rawGood = false ↔
      (determinePostType rawGood ∉
          [PostType.image, PostType.gif, PostType.video, PostType.gallery] ∨
        (rawGood.over_18 = true ∧ cfgW.includeNSFW = false) ∨
        rawGood.score < cfgW.minUpvotes ∨
        rawGood.num_comments < cfgW.minComments) :=
  shouldIncludePost_reject_iff cfgW rawGood

/-- Witness for C6: the sortedness and stability clauses instantiated at the
concrete two-source run of C4. -/
theorem fetchMemes_sorted_stable_witness :
    (fetchMemes fetchW cfgW).1 = sortPosts (fetchMemesAcc fetchW cfgW).1 ∧
    List.Sorted (fun a b : MemePost => b.engagement.upvotes ≤ a.engagement.upvotes)
      (fetchMemes fetchW cfgW).1 ∧
    List.Perm (fetchMemes fetchW cfgW).1 (fetchMemesAcc fetchW cfgW).1 ∧
    (∀ v : Int,
      ((fetchMemes fetchW cfgW).1.filter (fun p => decide (p.engagement.upvotes = v))) =
        ((fetchMemesAcc fetchW cfgW).1.filter (fun p => decide (p.engagement.upvotes = v)))) :=
  fetchMemes_sorted_stable fetchW cfgW
